import Mathlib

/-!
# Verification of `scripts/uploadrelease.py`

A shallow embedding of the ADOdb release-upload script in Lean 4, together
with theorems settling the specification claims about it.

Modelling conventions:

* Python strings are modelled as `List Char` (abbreviated `Str`).  The model
  covers the character data the script actually handles (ASCII file names,
  version numbers, URLs, API keys); where a helper is only faithful for
  single-byte code points this is stated in its doc comment.
* The Python string helpers that the script uses (`str.split`, `str.rsplit`,
  `int`, `os.path.splitext`, `os.path.join`, `urllib`-style query encoding)
  are embedded as executable Lean functions, each one a direct translation
  of the library behaviour the script relies on.
* Side effects are reified: `Effect.print` for `print(...)`, `Effect.spawn`
  for `subprocess.call(...)`, `Effect.httpPut` for `requests.put(...)`.
  `sys.exit(n)` is modelled as an `Option Nat` exit code (or the error
  component of an `Except`).  The directory listing that `glob` scans is a
  parameter `dirFiles : List Str`; HTTP responses come from an oracle
  `respond : Str → SfResponse` mapping the prepared request URL to the
  status code and the (already JSON-decoded) `result.x_sf.default` value.
-/

abbrev Str := List Char

/-- The single-quote character (used by the script inside `'{}'` format
placeholders of its error messages). -/
def squote : Char := Char.ofNat 39

/-! ## Embeddings of the Python library functions the script uses -/

/-- Python `s.split(sep)` for a one-character separator `sep` (no maxsplit):
splits at every occurrence, keeping empty pieces, and returns at least one
(possibly empty) piece. -/
def pySplit (sep : Char) : Str → List Str
  | [] => [[]]
  | c :: cs =>
    match pySplit sep cs with
    | [] => [[]]
    | t :: ts => if c = sep then [] :: t :: ts else (c :: t) :: ts

/-- Python `s.rsplit(sep, 1)[0]` for a one-character separator: everything
before the last occurrence of `sep`, or the whole string when `sep` does not
occur. -/
def pyRsplit1Head (sep : Char) (s : Str) : Str :=
  if sep ∈ s then ((s.reverse.dropWhile (fun c => ! (c == sep))).drop 1).reverse
  else s

/-- Python `int(s)` on a string of ASCII decimal digits.  (The script only
ever applies `int` to the major component of a version string produced by
its archive-name regular expression, which is a non-empty digit run.) -/
def pyIntDigits (s : Str) : Nat :=
  s.foldl (fun n c => 10 * n + (c.toNat - '0'.toNat)) 0

/-! ## `sourceforge_target_dir` (uploadrelease.py lines 143-169) -/

/-- `sourceforge_target_dir(version)`:

    major_version = int(version.rsplit('.')[0])
    if major_version == 5: directory = 'adodb-php5-only/'
    else:                  directory = 'adodb{}/'.format(major_version)
    short_version = version.split('-')[0].rsplit('.', 1)[0]
    directory += "adodb-" + short_version

`version.rsplit('.')` without maxsplit splits at every `'.'` exactly like
`split`, so its `[0]` element is the part before the first dot. -/
def sourceforge_target_dir (version : Str) : Str :=
  let major_version := pyIntDigits ((pySplit '.' version).headD [])
  let directory :=
    if major_version = 5 then "adodb-php5-only/".toList
    else "adodb".toList ++ (Nat.repr major_version).toList ++ ['/']
  let short_version := pyRsplit1Head '.' ((pySplit '-' version).headD [])
  directory ++ ("adodb-".toList ++ short_version)

/-! ## Helper lemmas about the string primitives -/

theorem pySplit_ne_nil (sep : Char) : ∀ s : Str, pySplit sep s ≠ [] := by
  intro s
  cases s with
  | nil => simp [pySplit]
  | cons c cs =>
    simp only [pySplit]
    cases pySplit sep cs with
    | nil => simp
    | cons t ts =>
      by_cases h : c = sep <;> simp [h]

theorem pySplit_append_sep (sep : Char) (xs ys : Str) (hx : sep ∉ xs) :
    pySplit sep (xs ++ sep :: ys) = xs :: pySplit sep ys := by
  induction xs with
  | nil =>
    simp only [List.nil_append, pySplit]
    cases h : pySplit sep ys with
    | nil => exact absurd h (pySplit_ne_nil sep ys)
    | cons t ts => simp
  | cons c cs ih =>
    have hc : c ≠ sep := fun h => hx (h ▸ List.mem_cons_self c cs)
    have hcs : sep ∉ cs := fun h => hx (List.mem_cons_of_mem c h)
    simp only [List.cons_append, pySplit, List.append_eq]
    rw [ih hcs]
    simp [hc]

theorem pySplit_of_not_mem (sep : Char) (xs : Str) (hx : sep ∉ xs) :
    pySplit sep xs = [xs] := by
  induction xs with
  | nil => simp [pySplit]
  | cons c cs ih =>
    have hc : c ≠ sep := fun h => hx (h ▸ List.mem_cons_self c cs)
    have hcs : sep ∉ cs := fun h => hx (List.mem_cons_of_mem c h)
    simp [pySplit, ih hcs, hc]

theorem dropWhile_append_of_forall {p : Char → Bool} (xs ys : Str)
    (h : ∀ c ∈ xs, p c = true) :
    (xs ++ ys).dropWhile p = ys.dropWhile p := by
  induction xs with
  | nil => simp
  | cons c cs ih =>
    have hc : p c = true := h c (List.mem_cons_self c cs)
    simp only [List.cons_append, List.dropWhile_cons, hc, if_true]
    exact ih fun d hd => h d (List.mem_cons_of_mem c hd)

theorem takeWhile_append_of_forall {p : Char → Bool} (xs ys : Str)
    (h : ∀ c ∈ xs, p c = true) :
    (xs ++ ys).takeWhile p = xs ++ ys.takeWhile p := by
  induction xs with
  | nil => simp
  | cons c cs ih =>
    have hc : p c = true := h c (List.mem_cons_self c cs)
    simp only [List.cons_append, List.takeWhile_cons, hc, if_true, List.cons_inj_right]
    exact ih fun d hd => h d (List.mem_cons_of_mem c hd)

theorem pyRsplit1Head_append (sep : Char) (ws zs : Str) (hz : sep ∉ zs) :
    pyRsplit1Head sep (ws ++ sep :: zs) = ws := by
  have hmem : sep ∈ ws ++ sep :: zs := List.mem_append_right ws (List.mem_cons_self sep zs)
  have hrev : (ws ++ sep :: zs).reverse = zs.reverse ++ sep :: ws.reverse := by
    simp
  have hall : ∀ c ∈ zs.reverse, (! (c == sep)) = true := by
    intro c hc
    have : c ∈ zs := List.mem_reverse.mp hc
    have : c ≠ sep := fun h => hz (h ▸ this)
    simp [this]
  rw [pyRsplit1Head, if_pos hmem, hrev,
    dropWhile_append_of_forall zs.reverse (sep :: ws.reverse) hall]
  simp [List.dropWhile_cons]

theorem not_mem_of_all_digits {X : Str} (hX : ∀ c ∈ X, c.isDigit = true)
    {c : Char} (hc : c.isDigit = false) : c ∉ X := by
  intro hmem
  rw [hX c hmem] at hc
  exact Bool.noConfusion hc

/-! ## Claim C1: the target-directory mapping -/

/-- C1: for every valid version string (three non-empty digit groups, with an
optional pre-release suffix introduced by `'-'`), `sourceforge_target_dir`
returns the base segment `"adodb-php5-only"` when the major version equals 5
and `"adodb{major}"` otherwise, joined with `'/'` to the sub segment
`"adodb-" ++ major ++ "." ++ minor` (patch component and pre-release suffix
stripped); in particular `"5.20.9"` maps to `"adodb-php5-only/adodb-5.20"`
and `"7.3.1-beta.2"` maps to `"adodb7/adodb-7.3"`. -/
theorem C1_sourceforge_target_dir (X Y Z tail : Str)
    (hX : X ≠ [] ∧ ∀ c ∈ X, c.isDigit = true)
    (hY : Y ≠ [] ∧ ∀ c ∈ Y, c.isDigit = true)
    (hZ : Z ≠ [] ∧ ∀ c ∈ Z, c.isDigit = true)
    (htail : tail = [] ∨ ∃ t, tail = '-' :: t) :
    sourceforge_target_dir (X ++ '.' :: (Y ++ '.' :: (Z ++ tail)))
      = (if pyIntDigits X = 5 then "adodb-php5-only".toList
         else "adodb".toList ++ (Nat.repr (pyIntDigits X)).toList)
        ++ '/' :: ("adodb-".toList ++ (X ++ '.' :: Y))
    ∧ sourceforge_target_dir "5.20.9".toList = "adodb-php5-only/adodb-5.20".toList
    ∧ sourceforge_target_dir "7.3.1-beta.2".toList = "adodb7/adodb-7.3".toList := by
  refine ⟨?_, by decide, by decide⟩
  obtain ⟨hXne, hXd⟩ := hX
  obtain ⟨hYne, hYd⟩ := hY
  obtain ⟨hZne, hZd⟩ := hZ
  have hdotX : '.' ∉ X := not_mem_of_all_digits hXd (by decide)
  have hdotZ : '.' ∉ Z := not_mem_of_all_digits hZd (by decide)
  have hdashX : '-' ∉ X := not_mem_of_all_digits hXd (by decide)
  have hdashY : '-' ∉ Y := not_mem_of_all_digits hYd (by decide)
  have hdashZ : '-' ∉ Z := not_mem_of_all_digits hZd (by decide)
  have h1 : (pySplit '.' (X ++ '.' :: (Y ++ '.' :: (Z ++ tail)))).headD [] = X := by
    rw [pySplit_append_sep '.' X _ hdotX]
    rfl
  have hdashW : '-' ∉ X ++ '.' :: (Y ++ '.' :: Z) := by
    simp only [List.mem_append, List.mem_cons]
    push_neg
    exact ⟨hdashX, by decide, hdashY, by decide, hdashZ⟩
  have h2 : (pySplit '-' (X ++ '.' :: (Y ++ '.' :: (Z ++ tail)))).headD []
      = X ++ '.' :: (Y ++ '.' :: Z) := by
    rcases htail with rfl | ⟨t, rfl⟩
    · rw [List.append_nil, pySplit_of_not_mem '-' _ hdashW]
      rfl
    · have harg : X ++ '.' :: (Y ++ '.' :: (Z ++ '-' :: t))
          = (X ++ '.' :: (Y ++ '.' :: Z)) ++ '-' :: t := by
        simp [List.append_assoc]
      rw [harg, pySplit_append_sep '-' _ t hdashW]
      rfl
  have h3 : pyRsplit1Head '.' (X ++ '.' :: (Y ++ '.' :: Z)) = X ++ '.' :: Y := by
    have hw : X ++ '.' :: (Y ++ '.' :: Z) = (X ++ '.' :: Y) ++ '.' :: Z := by
      simp [List.append_assoc]
    rw [hw, pyRsplit1Head_append '.' _ Z hdotZ]
  simp only [sourceforge_target_dir, h1, h2, h3]
  by_cases h5 : pyIntDigits X = 5
  · rw [if_pos h5, if_pos h5]
    have : ("adodb-php5-only/".toList : Str) = "adodb-php5-only".toList ++ ['/'] := by decide
    rw [this]
    simp [List.append_assoc]
  · rw [if_neg h5, if_neg h5]
    simp [List.append_assoc]

/-- Witness for C1 at the concrete version string `"7.3.1-beta.2"`. -/
theorem C1_sourceforge_target_dir_witness :
    sourceforge_target_dir ("7".toList ++ '.' :: ("3".toList ++ '.' :: ("1".toList ++ "-beta.2".toList)))
      = (if pyIntDigits "7".toList = 5 then "adodb-php5-only".toList
         else "adodb".toList ++ (Nat.repr (pyIntDigits "7".toList)).toList)
        ++ '/' :: ("adodb-".toList ++ ("7".toList ++ '.' :: "3".toList))
    ∧ sourceforge_target_dir "5.20.9".toList = "adodb-php5-only/adodb-5.20".toList
    ∧ sourceforge_target_dir "7.3.1-beta.2".toList = "adodb7/adodb-7.3".toList :=
  C1_sourceforge_target_dir "7".toList "3".toList "1".toList "-beta.2".toList
    (by decide) (by decide) (by decide) (Or.inr ⟨"beta.2".toList, by decide⟩)

/-! ## `get_release_version`'s archive-name pattern (uploadrelease.py lines 118-140)

The script extracts the version with

    re.search(r"^adodb-([\d]+\.[\d]+\.[\d]+)(-(alpha|beta|rc)\.[\d]+)?\.zip$", zipfile).group(1)

The pattern is embedded as a deterministic parser.  This is faithful to the
backtracking regex semantics because the pattern leaves no real choice:

* `^` and `$` anchor the match, so the literal `adodb-` must be an exact
  prefix.  (Per Python `re` semantics, `$` also matches just before a single
  newline that ends the string, which the final acceptance test mirrors.)
* every `[\d]+` run is followed in the pattern by a non-digit literal
  (`\.`, `-`, or the `\.` of `\.zip`), so in any successful match each digit
  run is maximal: the greedy `takeWhile Char.isDigit` choice is forced;
* the optional group starts with `-`, while the alternative continuation
  `\.zip` starts with `.`: whichever of the two the next character selects
  is the only one that can succeed, so no backtracking across the `?` is
  possible;
* the alternation `alpha|beta|rc` is between words no one of which is a
  prefix of another's possible continuation here (they start with distinct
  letters), so the first-match strip is exact.

`[\d]` is modelled as `Char.isDigit` (ASCII digits); non-ASCII Unicode
digit characters are outside the model's scope. -/

/-- Strip an exact literal from the front of a string (the way a regex
literal such as `adodb-` or `\.zip` consumes input). -/
def dropLit : Str → Str → Option Str
  | [], s => some s
  | _ :: _, [] => none
  | c :: p, d :: s => if c = d then dropLit p s else none

/-- One greedy `[\d]+`: the maximal non-empty digit run and the rest. -/
def parseDigits1 (s : Str) : Option (Str × Str) :=
  let d := s.takeWhile Char.isDigit
  if d = [] then none else some (d, s.dropWhile Char.isDigit)

/-- One literal character (a regex `\.`). -/
def expect (c : Char) : Str → Option Str
  | [] => none
  | d :: s => if d = c then some s else none

/-- The alternation `alpha|beta|rc`, tried left to right. -/
def phaseStrip? (s : Str) : Option Str :=
  (dropLit "alpha".toList s).orElse fun _ =>
  (dropLit "beta".toList s).orElse fun _ =>
  dropLit "rc".toList s

/-- The optional group `(-(alpha|beta|rc)\.[\d]+)?`.  When the input starts
with `'-'` the group is the only alternative that can consume it (the
continuation `\.zip` cannot), so a failure inside it fails the whole match;
otherwise the group matches empty input. -/
def matchPrerelease? : Str → Option Str
  | [] => some []
  | c :: rest =>
    if c = '-' then
      (phaseStrip? rest).bind fun r1 =>
      (expect '.' r1).bind fun r2 =>
      (parseDigits1 r2).bind fun p => some p.2
    else some (c :: rest)

/-- The whole pattern `^adodb-([\d]+\.[\d]+\.[\d]+)(-(alpha|beta|rc)\.[\d]+)?\.zip$`
applied by `re.search`: `some` of capture group 1 on a match, `none`
otherwise.  The final test accepts a leftover of `[]` or `['\n']` because
`$` (without `re.MULTILINE`) matches at the end of the string or just
before a terminal newline. -/
def archiveVersionMatch (name : Str) : Option Str :=
  (dropLit "adodb-".toList name).bind fun s0 =>
  (parseDigits1 s0).bind fun p1 =>
  (expect '.' p1.2).bind fun s2 =>
  (parseDigits1 s2).bind fun p2 =>
  (expect '.' p2.2).bind fun s4 =>
  (parseDigits1 s4).bind fun p3 =>
  (matchPrerelease? p3.2).bind fun s6 =>
  (dropLit ".zip".toList s6).bind fun s7 =>
  if s7 = [] ∨ s7 = ['\n'] then some (p1.1 ++ '.' :: (p2.1 ++ '.' :: p3.1)) else none

/-! ### Inversion and computation lemmas for the parser -/

theorem dropLit_eq_some : ∀ (p s r : Str), dropLit p s = some r ↔ s = p ++ r := by
  intro p
  induction p with
  | nil => intro s r; simp [dropLit]
  | cons c cs ih =>
    intro s r
    cases s with
    | nil => simp [dropLit]
    | cons d ds =>
      by_cases h : c = d
      · subst h
        simp [dropLit, ih ds r]
      · simp only [dropLit, h, if_false, ite_false, List.cons_append, List.cons.injEq]
        constructor
        · intro hh; exact absurd hh (by simp)
        · intro hh; exact absurd hh.1.symm h

theorem dropLit_append (p r : Str) : dropLit p (p ++ r) = some r :=
  (dropLit_eq_some p (p ++ r) r).mpr rfl

theorem expect_eq_some (c : Char) (s r : Str) : expect c s = some r ↔ s = c :: r := by
  cases s with
  | nil => simp [expect]
  | cons d ds =>
    by_cases h : d = c
    · subst h; simp [expect]
    · simp [expect, h, fun hh : d = c => h hh]

theorem mem_takeWhile_digit {s : Str} {c : Char}
    (h : c ∈ s.takeWhile Char.isDigit) : c.isDigit = true :=
  List.mem_takeWhile_imp h

theorem parseDigits1_eq_some {s : Str} {d r : Str}
    (h : parseDigits1 s = some (d, r)) :
    (d ≠ [] ∧ ∀ c ∈ d, c.isDigit = true) ∧ s = d ++ r := by
  unfold parseDigits1 at h
  by_cases hd : s.takeWhile Char.isDigit = []
  · simp [hd] at h
  · simp only [hd, if_neg, ite_false] at h
    obtain ⟨hd1, hr1⟩ := Prod.mk.injEq .. ▸ Option.some.injEq .. ▸ h
    have := List.takeWhile_append_dropWhile Char.isDigit s
    subst hd1; subst hr1
    exact ⟨⟨hd, fun c hc => mem_takeWhile_digit hc⟩, this.symm⟩

theorem parseDigits1_append {X : Str} (hne : X ≠ []) (hd : ∀ c ∈ X, c.isDigit = true)
    {c : Char} (hc : c.isDigit = false) (r : Str) :
    parseDigits1 (X ++ c :: r) = some (X, c :: r) := by
  unfold parseDigits1
  rw [takeWhile_append_of_forall X (c :: r) hd,
    dropWhile_append_of_forall X (c :: r) hd]
  simp [List.takeWhile_cons, List.dropWhile_cons, hc, hne]

/-- The three pre-release phase labels admitted by the pattern. -/
def phases : List Str := ["alpha".toList, "beta".toList, "rc".toList]

/-- A non-empty run of ASCII decimal digits (a regex `[\d]+` group). -/
def NonemptyDigits (s : Str) : Prop := s ≠ [] ∧ ∀ c ∈ s, c.isDigit = true


theorem some_orElse_eq {α : Type} (a : α) (f : Unit → Option α) :
    (some a).orElse f = some a := rfl

theorem none_orElse_eq {α : Type} (f : Unit → Option α) :
    (none : Option α).orElse f = f () := rfl

theorem phaseStrip?_inv {s r : Str} (h : phaseStrip? s = some r) :
    ∃ phase, phase ∈ phases ∧ s = phase ++ r := by
  unfold phaseStrip? at h
  cases ha : dropLit "alpha".toList s with
  | some r1 =>
    rw [ha, some_orElse_eq, Option.some.injEq] at h
    exact ⟨"alpha".toList, by simp [phases], (dropLit_eq_some _ s r).mp (h ▸ ha)⟩
  | none =>
    rw [ha, none_orElse_eq] at h
    cases hb : dropLit "beta".toList s with
    | some r1 =>
      rw [hb, some_orElse_eq, Option.some.injEq] at h
      exact ⟨"beta".toList, by simp [phases], (dropLit_eq_some _ s r).mp (h ▸ hb)⟩
    | none =>
      rw [hb, none_orElse_eq] at h
      exact ⟨"rc".toList, by simp [phases], (dropLit_eq_some _ s r).mp h⟩

theorem phaseStrip?_of_mem {phase : Str} (h : phase ∈ phases) (r : Str) :
    phaseStrip? (phase ++ r) = some r := by
  have h3 : phase = "alpha".toList ∨ phase = "beta".toList ∨ phase = "rc".toList := by
    simpa [phases] using h
  rcases h3 with rfl | rfl | rfl
  · unfold phaseStrip?
    rw [dropLit_append, some_orElse_eq]
  · unfold phaseStrip?
    rw [show dropLit "alpha".toList ("beta".toList ++ r) = none from rfl,
      none_orElse_eq, dropLit_append, some_orElse_eq]
  · unfold phaseStrip?
    rw [show dropLit "alpha".toList ("rc".toList ++ r) = none from rfl, none_orElse_eq,
      show dropLit "beta".toList ("rc".toList ++ r) = none from rfl, none_orElse_eq,
      dropLit_append]

theorem matchPrerelease?_inv {s r : Str} (h : matchPrerelease? s = some r) :
    s = r ∨ ∃ phase N, phase ∈ phases ∧ NonemptyDigits N ∧
      s = '-' :: (phase ++ '.' :: (N ++ r)) := by
  cases s with
  | nil =>
    left
    have h0 : ([] : Str) = r := by simpa [matchPrerelease?] using h
    exact h0
  | cons c rest =>
    by_cases hc : c = '-'
    · subst hc
      right
      rw [show matchPrerelease? ('-' :: rest)
          = (phaseStrip? rest).bind (fun r1 =>
              (expect '.' r1).bind fun r2 =>
              (parseDigits1 r2).bind fun p => some p.2) from rfl] at h
      simp only [Option.bind_eq_some] at h
      obtain ⟨r1, h1, r2, h2, p, h3, h4⟩ := h
      obtain ⟨N, r3⟩ := p
      obtain rfl : r3 = r := by simpa using h4
      obtain ⟨phase, hp, rfl⟩ := phaseStrip?_inv h1
      obtain rfl : r1 = '.' :: r2 := (expect_eq_some '.' r1 r2).mp h2
      obtain ⟨hN, rfl⟩ := parseDigits1_eq_some h3
      exact ⟨phase, N, hp, hN, rfl⟩
    · left
      have h0 : matchPrerelease? (c :: rest) = some (c :: rest) := by
        unfold matchPrerelease?
        dsimp only
        rw [if_neg hc]
      rw [h0] at h
      simpa using h

theorem matchPrerelease?_nodash {s : Str} (h : ∀ t : Str, s ≠ '-' :: t) :
    matchPrerelease? s = some s := by
  cases s with
  | nil => rfl
  | cons c rest =>
    have hc : c ≠ '-' := fun hcc => h rest (by rw [hcc])
    unfold matchPrerelease?
    dsimp only
    rw [if_neg hc]

theorem matchPrerelease?_pre {phase N : Str} (hp : phase ∈ phases)
    (hN : N ≠ []) (hNd : ∀ c ∈ N, c.isDigit = true)
    {c : Char} (hc : c.isDigit = false) (r : Str) :
    matchPrerelease? ('-' :: (phase ++ '.' :: (N ++ c :: r))) = some (c :: r) := by
  rw [show matchPrerelease? ('-' :: (phase ++ '.' :: (N ++ c :: r)))
      = (phaseStrip? (phase ++ '.' :: (N ++ c :: r))).bind (fun r1 =>
          (expect '.' r1).bind fun r2 =>
          (parseDigits1 r2).bind fun p => some p.2) from rfl]
  rw [phaseStrip?_of_mem hp, Option.some_bind]
  rw [show expect '.' ('.' :: (N ++ c :: r)) = some (N ++ c :: r) from rfl, Option.some_bind]
  rw [parseDigits1_append hN hNd hc r, Option.some_bind]

theorem expect_self (c : Char) (r : Str) : expect c (c :: r) = some r := by
  unfold expect
  dsimp only
  rw [if_pos rfl]

/-- The file-name shape accepted by the archive pattern: `adodb-X.Y.Z.zip` or
`adodb-X.Y.Z-<phase>.<n>.zip` (`X`, `Y`, `Z`, `n` non-empty digit runs,
`phase ∈ {alpha, beta, rc}`), with `tail` the leftover that `$` tolerates
(nothing, or one terminal newline); the extracted version is `X.Y.Z`. -/
def ArchiveShape (name v : Str) : Prop :=
  ∃ X Y Z pre tail,
    NonemptyDigits X ∧ NonemptyDigits Y ∧ NonemptyDigits Z ∧
    (pre = [] ∨ ∃ phase N, phase ∈ phases ∧ NonemptyDigits N ∧
      pre = '-' :: (phase ++ '.' :: N)) ∧
    (tail = [] ∨ tail = ['\n']) ∧
    v = X ++ '.' :: (Y ++ '.' :: Z) ∧
    name = "adodb-".toList ++ (X ++ '.' :: (Y ++ '.' :: (Z ++ (pre ++ (".zip".toList ++ tail)))))

/-- The shape exactly as the claim words it (no trailing-newline tolerance):
`adodb-X.Y.Z.zip` or `adodb-X.Y.Z-<phase>.<n>.zip`, nothing after `.zip`. -/
def ArchiveShapeStrict (name v : Str) : Prop :=
  ∃ X Y Z pre,
    NonemptyDigits X ∧ NonemptyDigits Y ∧ NonemptyDigits Z ∧
    (pre = [] ∨ ∃ phase N, phase ∈ phases ∧ NonemptyDigits N ∧
      pre = '-' :: (phase ++ '.' :: N)) ∧
    v = X ++ '.' :: (Y ++ '.' :: Z) ∧
    name = "adodb-".toList ++ (X ++ '.' :: (Y ++ '.' :: (Z ++ (pre ++ ".zip".toList))))

theorem archive_complete {name v : Str} (h : archiveVersionMatch name = some v) :
    ArchiveShape name v := by
  unfold archiveVersionMatch at h
  simp only [Option.bind_eq_some] at h
  obtain ⟨s0, h0, p1, h1, s2, h2, p2, h3, s4, h4, p3, h5, s6, h6, s7, h7, h8⟩ := h
  obtain ⟨x, s1⟩ := p1
  obtain ⟨y, s3⟩ := p2
  obtain ⟨z, s5⟩ := p3
  rw [dropLit_eq_some] at h0
  obtain ⟨hX, rfl⟩ := parseDigits1_eq_some h1
  obtain rfl : s1 = '.' :: s2 := (expect_eq_some '.' s1 s2).mp h2
  obtain ⟨hY, rfl⟩ := parseDigits1_eq_some h3
  obtain rfl : s3 = '.' :: s4 := (expect_eq_some '.' s3 s4).mp h4
  obtain ⟨hZ, rfl⟩ := parseDigits1_eq_some h5
  rw [dropLit_eq_some] at h7
  subst h7
  split_ifs at h8 with ht
  · rw [Option.some.injEq] at h8
    rcases matchPrerelease?_inv h6 with heq | ⟨phase, N, hp, hN, heq⟩
    · have heq2 : s5 = ".zip".toList ++ s7 := heq
      refine ⟨x, y, z, [], s7, hX, hY, hZ, Or.inl rfl, ht, h8.symm, ?_⟩
      rw [h0, heq2]
      simp [List.append_assoc]
    · have heq2 : s5 = '-' :: (phase ++ '.' :: (N ++ (".zip".toList ++ s7))) := heq
      refine ⟨x, y, z, '-' :: (phase ++ '.' :: N), s7, hX, hY, hZ,
        Or.inr ⟨phase, N, hp, hN, rfl⟩, ht, h8.symm, ?_⟩
      rw [h0, heq2]
      simp [List.append_assoc]

theorem archive_sound {name v : Str} (h : ArchiveShape name v) :
    archiveVersionMatch name = some v := by
  obtain ⟨X, Y, Z, pre, tail, hX, hY, hZ, hpre, htail, rfl, rfl⟩ := h
  have hdot : ('.' : Char).isDigit = false := by decide
  have hdash : ('-' : Char).isDigit = false := by decide
  have hzip : (".zip".toList : Str) ++ tail = '.' :: ("zip".toList ++ tail) := rfl
  unfold archiveVersionMatch
  rw [dropLit_append]
  simp only [Option.some_bind]
  rw [parseDigits1_append hX.1 hX.2 hdot]
  simp only [Option.some_bind]
  rw [expect_self]
  simp only [Option.some_bind]
  rw [parseDigits1_append hY.1 hY.2 hdot]
  simp only [Option.some_bind]
  rw [expect_self]
  simp only [Option.some_bind]
  rcases hpre with rfl | ⟨phase, N, hp, hN, rfl⟩
  · rw [List.nil_append, hzip, parseDigits1_append hZ.1 hZ.2 hdot]
    simp only [Option.some_bind]
    rw [matchPrerelease?_nodash (fun t hteq => by
      have : ('.' : Char) = '-' := (List.cons.inj hteq).1
      exact absurd this (by decide))]
    simp only [Option.some_bind]
    rw [← hzip, dropLit_append]
    simp only [Option.some_bind]
    rcases htail with rfl | rfl
    · rw [if_pos (Or.inl rfl)]
    · rw [if_pos (Or.inr rfl)]
  · have hb : (('-' :: (phase ++ '.' :: N) : Str) ++ (".zip".toList ++ tail))
        = '-' :: (phase ++ '.' :: (N ++ '.' :: ("zip".toList ++ tail))) := by
      rw [hzip]
      simp [List.append_assoc]
    rw [hb, parseDigits1_append hZ.1 hZ.2 hdash]
    simp only [Option.some_bind]
    rw [matchPrerelease?_pre hp hN.1 hN.2 hdot]
    simp only [Option.some_bind]
    rw [← hzip, dropLit_append]
    simp only [Option.some_bind]
    rcases htail with rfl | rfl
    · rw [if_pos (Or.inl rfl)]
    · rw [if_pos (Or.inr rfl)]

theorem ArchiveShapeStrict_no_newline {name v : Str} (h : ArchiveShapeStrict name v) :
    ('\n' : Char) ∉ name := by
  obtain ⟨X, Y, Z, pre, hX, hY, hZ, hpre, hv, rfl⟩ := h
  have hnl : ('\n' : Char).isDigit = false := by decide
  intro hmem
  rcases List.mem_append.mp hmem with ha | hb
  · exact absurd ha (by decide)
  rcases List.mem_append.mp hb with ha | hb
  · exact not_mem_of_all_digits hX.2 hnl ha
  rcases List.mem_cons.mp hb with ha | hb
  · exact absurd ha (by decide)
  rcases List.mem_append.mp hb with ha | hb
  · exact not_mem_of_all_digits hY.2 hnl ha
  rcases List.mem_cons.mp hb with ha | hb
  · exact absurd ha (by decide)
  rcases List.mem_append.mp hb with ha | hb
  · exact not_mem_of_all_digits hZ.2 hnl ha
  rcases List.mem_append.mp hb with ha | hb
  · rcases hpre with rfl | ⟨phase, N, hp, hN, rfl⟩
    · exact absurd ha (by simp)
    · rcases List.mem_cons.mp ha with hc | hc
      · exact absurd hc (by decide)
      rcases List.mem_append.mp hc with hd | hd
      · have h3 : phase = "alpha".toList ∨ phase = "beta".toList ∨ phase = "rc".toList := by
          simpa [phases] using hp
        rcases h3 with rfl | rfl | rfl <;> exact absurd hd (by decide)
      rcases List.mem_cons.mp hd with he | he
      · exact absurd he (by decide)
      · exact not_mem_of_all_digits hN.2 hnl he
  · exact absurd hb (by decide)

/-! ## Claim C2: characterization of the archive-name pattern -/

/-- C2 counterexample: the name `"adodb-1.2.3.zip\n"` deviates from the
claimed shape (it carries a trailing newline after `.zip`), yet the pattern
matches it and extracts `"1.2.3"`, because Python's `$` anchor also matches
just before a newline that ends the string. -/
theorem C2_counterexample :
    archiveVersionMatch "adodb-1.2.3.zip\n".toList = some "1.2.3".toList
    ∧ ¬ ∃ v : Str, ArchiveShapeStrict "adodb-1.2.3.zip\n".toList v :=
  ⟨by decide, fun ⟨_, hv⟩ => ArchiveShapeStrict_no_newline hv (by decide)⟩

/-- C2 (amended): a file name matches the archive pattern with extracted
version `v` exactly when it is `adodb-X.Y.Z.zip` or
`adodb-X.Y.Z-<phase>.<n>.zip` — with `X`, `Y`, `Z`, `n` non-empty digit
runs, `phase ∈ {alpha, beta, rc}`, and `v = X.Y.Z` — optionally followed by
one trailing newline (which Python's `$` anchor tolerates); every other
name fails to match. -/
theorem C2_archive_pattern (name v : Str) :
    archiveVersionMatch name = some v ↔ ArchiveShape name v :=
  ⟨archive_complete, archive_sound⟩

/-! ## Remaining Python library helpers used by the metadata stage -/

/-- Python `os.path.splitext(p)[1]` for a plain file name (no directory
separators, as produced by `glob` in the script's working directory): the
extension including its dot, taken from the last `'.'`, except that a run of
leading dots never starts an extension. -/
def pySplitextExt (p : Str) : Str :=
  let lead := p.takeWhile (fun c => c == '.')
  let rest := p.drop lead.length
  if '.' ∈ rest then '.' :: (rest.reverse.takeWhile (fun c => ! (c == '.'))).reverse
  else []

/-- Python `os.path.join(a, b)` (POSIX): `b` if `b` is absolute, otherwise
`a + b` when `a` is empty or already ends with `'/'`, else `a + '/' + b`. -/
def pyPathJoin (a b : Str) : Str :=
  if b.head? = some '/' then b
  else if a = [] ∨ a.getLast? = some '/' then a ++ b
  else a ++ '/' :: b

/-- Upper-case hexadecimal digit for a value below 16. -/
def hexDigit (n : Nat) : Char :=
  if n < 10 then Char.ofNat ('0'.toNat + n) else Char.ofNat ('A'.toNat + (n - 10))

/-- `urllib.parse.quote_plus` on one character, as applied by
`urlencode` inside `requests`' query-string preparation: ASCII
alphanumerics and `_ . - ~` pass through, a space becomes `'+'`, anything
else becomes a percent-escaped byte.  (Faithful for single-byte code
points, which covers every character the script puts in a query string.) -/
def urlencodeChar (c : Char) : Str :=
  if c = ' ' then ['+']
  else if c.isAlphanum || c == '_' || c == '.' || c == '-' || c == '~' then [c]
  else ['%', hexDigit (c.toNat / 16 % 16), hexDigit (c.toNat % 16)]

/-- `quote_plus` on a whole string. -/
def urlencode1 (s : Str) : Str := (s.map urlencodeChar).flatten

/-- `urllib.parse.urlencode(params, doseq=True)`: one `key=value` pair per
element of each key's value list, joined with `'&'`, both sides quoted. -/
def urlencodeParams (ps : List (Str × List Str)) : Str :=
  List.intercalate "&".toList
    (ps.flatMap fun kv => kv.2.map fun v => urlencode1 kv.1 ++ '=' :: urlencode1 v)

/-! ## The observable effects of a run -/

/-- One externally visible action of the script. -/
inductive Effect where
  | print (line : Str)
  | spawn (cmd : Str)
  | httpPut (url : Str) (headers : List (Str × Str))
deriving DecidableEq

/-- The service's answer to a metadata request, keyed by the prepared URL:
the HTTP status code and the (already JSON-decoded) `result.x_sf.default`
value of the response body. -/
structure SfResponse where
  status : Nat
  resultDefault : Str

/-- `requests.codes.ok`. -/
def httpOk : Nat := 200

/-- `requests.codes.unauthorized`. -/
def httpUnauthorized : Nat := 401

/-! ## `set_sourceforge_file_info` (uploadrelease.py lines 237-284) -/

/-- The literal `headers` dict of the script: note the stray `"` at the end
of the value, exactly as in the source (`'application/json"'`). -/
def sf_headers : List (Str × Str) := [("Accept".toList, "application/json\"".toList)]

/-- The extension dispatch of the per-file loop: `.zip` gets the default
platform tag `windows`; `.gz` gets `linux, mac, bsd, solaris, others`;
anything else is unknown. -/
def extTags (ext : Str) : Option (List Str) :=
  if ext = ".zip".toList then some ["windows".toList]
  else if ext = ".gz".toList then
    some ["linux".toList, "mac".toList, "bsd".toList, "solaris".toList, "others".toList]
  else none

/-- Configuration the loop body reads: the dry-run flag, the API key from
external configuration (`env.sf_api_key`), and the resolved
`sf_api_url.format(target_dir)` base URL. -/
structure LoopCfg where
  dryRun : Bool
  apiKey : Str
  baseUrl : Str

/-- The prepared request URL: `path.join(base_url, file)` plus the encoded
query string of `payload = {'default': defaults, 'api_key': key}` (dict
insertion order). -/
def requestUrl (cfg : LoopCfg) (file : Str) (defaults : List Str) : Str :=
  pyPathJoin cfg.baseUrl file
    ++ '?' :: urlencodeParams
      [("default".toList, defaults), ("api_key".toList, [cfg.apiKey])]

/-- The `for file in glob.glob('adodb-*')` loop of
`set_sourceforge_file_info`: prints the file name; dispatches on the
extension (unknown extensions warn and `continue`); in dry-run mode prints
the prepared URL; otherwise issues the PUT and, on a non-ok status, prints
an error that distinguishes 401 from everything else and `break`s. -/
def fileLoop (cfg : LoopCfg) (respond : Str → SfResponse) : List Str → List Effect
  | [] => []
  | file :: rest =>
    let pre := Effect.print ("  ".toList ++ file)
    match extTags (pySplitextExt file) with
    | none =>
      pre :: Effect.print ("WARNING: Unknown extension for file ".toList ++ file)
        :: fileLoop cfg respond rest
    | some defaults =>
      let u := requestUrl cfg file defaults
      if cfg.dryRun then
        pre :: Effect.print ("    Calling SourceForge Release API: ".toList ++ u)
          :: fileLoop cfg respond rest
      else
        let resp := respond u
        if resp.status = httpOk then
          pre :: Effect.httpPut u sf_headers
            :: Effect.print ("    Download default for: ".toList ++ resp.resultDefault)
            :: fileLoop cfg respond rest
        else
          [pre, Effect.httpPut u sf_headers,
           Effect.print ("ERROR: ".toList
             ++ (if resp.status = httpUnauthorized then "access denied".toList
                 else "SourceForge API call failed".toList)
             ++ " - check API key".toList)]

/-! ## `get_release_version` and the glob patterns -/

/-- `glob.glob('adodb-*.zip')` membership test: the literal prefix
`adodb-`, then anything, then the literal suffix `.zip`.  (No name can
satisfy both literals in fewer than 10 characters, so prefix-and-suffix is
exactly the glob.) -/
def zipGlob (f : Str) : Bool :=
  "adodb-".toList.isPrefixOf f && ".zip".toList.isSuffixOf f

/-- `glob.glob('adodb-*')` membership test. -/
def adodbGlob (f : Str) : Bool := "adodb-".toList.isPrefixOf f

/-- The `ERROR: release zip file not found in '{release_path}'` message. -/
def notFoundMsg (releasePath : Str) : Str :=
  "ERROR: release zip file not found in ".toList ++ squote :: (releasePath ++ [squote])

/-- The two-line `ERROR: unable to extract version number from '{zipfile}'`
message. -/
def badVersionMsg (zipfile : Str) : Str :=
  "ERROR: unable to extract version number from ".toList
    ++ squote :: (zipfile
    ++ squote :: "\n       Only 3 groups of digits separated by periods are allowed".toList)

/-- `get_release_version()`: take the first `adodb-*.zip` name from the
directory listing (IndexError on an empty listing exits 1 after the
not-found diagnostic), then extract regex group 1 (an AttributeError on a
failed match exits 1 after the unparsable diagnostic).  The error component
carries the exit code and the printed message. -/
def get_release_version (releasePath : Str) (dirFiles : List Str) :
    Except (Nat × Str) Str :=
  match dirFiles.filter zipGlob with
  | [] => .error (1, notFoundMsg releasePath)
  | zipfile :: _ =>
    match archiveVersionMatch zipfile with
    | none => .error (1, badVersionMsg zipfile)
    | some version => .ok version

/-! ## The transfer stage (uploadrelease.py lines 87-115 and 215-234) -/

/-- The `sf_files` global: remote host and base path. -/
def sf_files : Str := "frs.sourceforge.net:/home/frs/project/adodb/".toList

/-- The `sf_api_url` global with `{}` filled by the target directory:
`https://sourceforge.net/projects/adodb/files/{targetDir}/`. -/
def sfApiBase (targetDir : Str) : Str :=
  "https://sourceforge.net/projects/adodb/files/".toList ++ targetDir ++ ['/']

/-- The formatted `rsync_cmd` template
`rsync -vP --rsh ssh {opt} {src} {usr}@{dst}`. -/
def rsync_cmd_str (usr opt src dst : Str) : Str :=
  "rsync -vP --rsh ssh ".toList ++ opt ++ ' ' :: (src ++ ' ' :: (usr ++ '@' :: dst))

/-- The remote `mkdir` command `ssh {usr}@{host} mkdir -p {dst}` built in
`call_rsync` from `dst.rsplit(':')`: element 0 is the host, element 1 the
remote path. -/
def mkdir_cmd_str (usr dst : Str) : Str :=
  let parts := pySplit ':' dst
  "ssh ".toList ++ usr ++ '@' :: (parts.headD []
    ++ " mkdir -p ".toList ++ (parts.drop 1).headD [])

/-- `call_rsync(usr, opt, src, dst)`: in dry-run mode print the two command
lines, otherwise spawn them via `subprocess.call`. -/
def call_rsync (dryRun : Bool) (usr opt src dst : Str) : List Effect :=
  let command := rsync_cmd_str usr opt src dst
  let mkdir := mkdir_cmd_str usr dst
  if dryRun then [Effect.print mkdir, Effect.print command]
  else [Effect.spawn mkdir, Effect.spawn command]

/-- `upload_release_files()`: resolve the version (exiting on failure),
print the banner block (`glob.glob('*')` is the directory listing), then
`call_rsync(username, "", path.join(release_path, "*"), sf_files + target)`. -/
def upload_release_files_run (dryRun : Bool) (username releasePath : Str)
    (dirFiles : List Str) : Except (List Effect × Nat) (List Effect) :=
  match get_release_version releasePath dirFiles with
  | .error (code, msg) => .error ([Effect.print msg], code)
  | .ok version =>
    let target := sf_files ++ sourceforge_target_dir version
    .ok ([Effect.print [],
          Effect.print "Uploading release files...".toList,
          Effect.print ("  Source: ".toList ++ releasePath),
          Effect.print ("  Target: ".toList ++ target),
          Effect.print ("  Files:  ".toList ++ List.intercalate ", ".toList dirFiles),
          Effect.print []]
         ++ call_rsync dryRun username [] (pyPathJoin releasePath "*".toList) target
         ++ [Effect.print []])

/-- `set_sourceforge_file_info()`: print the banner, resolve the version
again (exiting 1 with its diagnostic on failure), then run the per-file
loop over `glob.glob('adodb-*')`. -/
def set_sourceforge_file_info_run (dryRun : Bool) (apiKey releasePath : Str)
    (dirFiles : List Str) (respond : Str → SfResponse) :
    List Effect × Option Nat :=
  let pre := Effect.print "Updating uploaded files information".toList
  match get_release_version releasePath dirFiles with
  | .error (code, msg) => ([pre, Effect.print msg], some code)
  | .ok version =>
    (pre :: fileLoop
      { dryRun := dryRun, apiKey := apiKey,
        baseUrl := sfApiBase (sourceforge_target_dir version) }
      respond (dirFiles.filter adodbGlob), none)

/-- `main()` after `process_command_line` has set the global flags: print
the banner, then either skip the upload (with its message) or run
`upload_release_files` (propagating a fatal exit), then run
`set_sourceforge_file_info`. -/
def main_run (dryRun skipUpload : Bool) (username apiKey releasePath : Str)
    (dirFiles : List Str) (respond : Str → SfResponse) :
    List Effect × Option Nat :=
  let banner := Effect.print "ADOdb release upload script".toList
  if skipUpload then
    let st := set_sourceforge_file_info_run dryRun apiKey releasePath dirFiles respond
    (banner :: Effect.print "Skipping upload of release files".toList :: st.1, st.2)
  else
    match upload_release_files_run dryRun username releasePath dirFiles with
    | .error (effs, code) => (banner :: effs, some code)
    | .ok effs =>
      let st := set_sourceforge_file_info_run dryRun apiKey releasePath dirFiles respond
      (banner :: (effs ++ st.1), st.2)

/-! ## The command-line front end (uploadrelease.py lines 61-84 and 172-212) -/

/-- The text printed by `usage()`, with the `{}` placeholder already filled
by `path.basename(__file__)` (the script name). -/
def usageTextStr : Str :=
  ("Usage: uploadrelease.py [options] username [release_path]\n\n"
    ++ "    This script will upload the files in the given directory (or the\n"
    ++ "    current one if unspecified) to SourceForge.\n\n"
    ++ "    Parameters:\n"
    ++ "        release_path            Location of the release files to upload,\n"
    ++ "                                see buildrelease.py to generate them.\n"
    ++ "                                Defaults to current directory.\n\n"
    ++ "    Options:\n"
    ++ "        -h | --help             Show this usage message\n"
    ++ "        -u | --user <name>      SourceForge account (defaults to current user)\n"
    ++ "        -s | --skip-upload      Do not upload the release files (allows only\n"
    ++ "                                updating previously uploaded files information)\n"
    ++ "        -n | --dry-run          Do not upload or update sourceforge\n").toList

/-- The outcome of `getopt.gnu_getopt(sys.argv[1:], "hu:ns", long_options)`:
either a `GetoptError` (whose message the script prints) or the normalized
`(opts, args)` pair.  `getopt` itself is library code; the model takes its
outcome as input. -/
inductive GetoptResult where
  | err (msg : Str)
  | ok (opts : List (Str × Str)) (args : List Str)

/-- The global flags `process_command_line` assigns. -/
structure Config where
  dryRun : Bool
  username : Str
  skipUpload : Bool
deriving DecidableEq

/-- The `for opt, val in opts` loop: `-h`/`--help` prints usage and exits 0;
`-u`/`--user` sets the username; `-s`/`--skip-upload` and `-n`/`--dry-run`
set their flags (dry-run also prints its notice).  `acc` carries the
effects printed so far. -/
def procOpts : List (Str × Str) → Config → List Effect →
    Except (List Effect × Nat) (Config × List Effect)
  | [], cfg, acc => .ok (cfg, acc)
  | (opt, val) :: rest, cfg, acc =>
    if opt = "-h".toList ∨ opt = "--help".toList then
      .error (acc ++ [Effect.print usageTextStr], 0)
    else if opt = "-u".toList ∨ opt = "--user".toList then
      procOpts rest { cfg with username := val } acc
    else if opt = "-s".toList ∨ opt = "--skip-upload".toList then
      procOpts rest { cfg with skipUpload := true } acc
    else if opt = "-n".toList ∨ opt = "--dry-run".toList then
      procOpts rest { cfg with dryRun := true }
        (acc ++ [Effect.print "Dry-run mode - files will not be uploaded or modified".toList])
    else
      procOpts rest cfg acc

/-- `process_command_line()`: on a `GetoptError` print the error and the
usage text and exit 2; otherwise run the option loop (which may exit 0 on
help) and resolve the release path from the first positional argument,
defaulting to the current directory. -/
def process_command_line_run (g : GetoptResult) (defaultUser cwd : Str) :
    Except (List Effect × Nat) (Config × Str × List Effect) :=
  match g with
  | .err msg => .error ([Effect.print msg, Effect.print usageTextStr], 2)
  | .ok opts args =>
    match procOpts opts { dryRun := false, username := defaultUser, skipUpload := false } [] with
    | .error e => .error e
    | .ok (cfg, effs) => .ok (cfg, args.headD cwd, effs)

/-! ## Claim C3: response handling and fail-fast -/

/-- C3: in non-dry mode, when the request for a file with a recognized
extension comes back with a non-success status, the loop prints an error
line that says `access denied` exactly for the unauthorized status and
`SourceForge API call failed` for every other failure status, and stops at
once — the run's remaining effects are exactly the three for this file, so
no later file receives a request; on a success status it logs the tag-set
value echoed by the service and continues with the next file. -/
theorem C3_fail_fast (cfg : LoopCfg) (respond : Str → SfResponse)
    (file : Str) (rest : List Str) (defaults : List Str)
    (hdry : cfg.dryRun = false)
    (hext : extTags (pySplitextExt file) = some defaults) :
    ((respond (requestUrl cfg file defaults)).status ≠ httpOk →
      fileLoop cfg respond (file :: rest)
        = [Effect.print ("  ".toList ++ file),
           Effect.httpPut (requestUrl cfg file defaults) sf_headers,
           Effect.print ("ERROR: ".toList
             ++ (if (respond (requestUrl cfg file defaults)).status = httpUnauthorized
                 then "access denied".toList
                 else "SourceForge API call failed".toList)
             ++ " - check API key".toList)])
    ∧ ((respond (requestUrl cfg file defaults)).status = httpOk →
      fileLoop cfg respond (file :: rest)
        = Effect.print ("  ".toList ++ file)
          :: Effect.httpPut (requestUrl cfg file defaults) sf_headers
          :: Effect.print ("    Download default for: ".toList
               ++ (respond (requestUrl cfg file defaults)).resultDefault)
          :: fileLoop cfg respond rest) := by
  constructor <;> intro hst <;> simp [fileLoop, hext, hdry, hst]

/-- Parameters for the C3 witness: a fixed loop configuration and a
responder that always answers 404. -/
def cfgC3 : LoopCfg := ⟨false, "KEY".toList, "https://x/".toList⟩

/-- A responder that answers any URL with status 404. -/
def respond404 : Str → SfResponse := fun _ => ⟨404, "w".toList⟩

/-- Witness for C3 at a concrete failing input: one `.zip` file, a 404
response, a second file waiting in the list. -/
theorem C3_fail_fast_witness :
    ((respond404 (requestUrl cfgC3 "adodb-8.0.0.zip".toList ["windows".toList])).status ≠ httpOk →
      fileLoop cfgC3 respond404
          ("adodb-8.0.0.zip".toList :: ["adodb-8.0.0.tar.gz".toList])
        = [Effect.print ("  ".toList ++ "adodb-8.0.0.zip".toList),
           Effect.httpPut (requestUrl cfgC3 "adodb-8.0.0.zip".toList ["windows".toList]) sf_headers,
           Effect.print ("ERROR: ".toList
             ++ (if (respond404 (requestUrl cfgC3 "adodb-8.0.0.zip".toList
                     ["windows".toList])).status = httpUnauthorized
                 then "access denied".toList
                 else "SourceForge API call failed".toList)
             ++ " - check API key".toList)])
    ∧ ((respond404 (requestUrl cfgC3 "adodb-8.0.0.zip".toList ["windows".toList])).status = httpOk →
      fileLoop cfgC3 respond404
          ("adodb-8.0.0.zip".toList :: ["adodb-8.0.0.tar.gz".toList])
        = Effect.print ("  ".toList ++ "adodb-8.0.0.zip".toList)
          :: Effect.httpPut (requestUrl cfgC3 "adodb-8.0.0.zip".toList
               ["windows".toList]) sf_headers
          :: Effect.print ("    Download default for: ".toList
               ++ (respond404 (requestUrl cfgC3 "adodb-8.0.0.zip".toList
                    ["windows".toList])).resultDefault)
          :: fileLoop cfgC3 respond404 ["adodb-8.0.0.tar.gz".toList]) :=
  C3_fail_fast cfgC3 respond404
    "adodb-8.0.0.zip".toList ["adodb-8.0.0.tar.gz".toList] ["windows".toList]
    rfl (by decide)

/-! ## Claim C5: extension dispatch -/

/-- C5: `.zip` yields the default platform tag set `{windows}`, `.gz`
yields `{linux, mac, bsd, solaris, others}`, and a file with any other
extension is skipped with a printed warning while the loop continues with
the remaining files. -/
theorem C5_extension_dispatch (cfg : LoopCfg) (respond : Str → SfResponse)
    (file : Str) (rest : List Str) :
    extTags ".zip".toList = some ["windows".toList]
    ∧ extTags ".gz".toList
        = some ["linux".toList, "mac".toList, "bsd".toList, "solaris".toList, "others".toList]
    ∧ (extTags (pySplitextExt file) = none →
        fileLoop cfg respond (file :: rest)
          = Effect.print ("  ".toList ++ file)
            :: Effect.print ("WARNING: Unknown extension for file ".toList ++ file)
            :: fileLoop cfg respond rest)
    ∧ pySplitextExt "adodb-5.20.9.zip".toList = ".zip".toList
    ∧ pySplitextExt "adodb-5.20.9.tar.gz".toList = ".gz".toList := by
  refine ⟨by decide, by decide, fun hext => ?_, by decide, by decide⟩
  simp [fileLoop, hext]

/-! ## Claim C4: exit codes -/

/-- C4: the tool exits 0 after printing the usage text when help is
requested (whether the `-h`/`--help` entry is reached inside the option
loop or leads the option list), exits 2 after printing the error and the
usage text on a `getopt` failure, and exits 1 after printing a diagnostic
both when no file matches `adodb-*.zip` and when the first candidate does
not parse into the required version groups. -/
theorem C4_exit_codes (msg defaultUser cwd v : Str) (rest : List (Str × Str))
    (args : List Str) (cfg : Config) (acc : List Effect)
    (releasePath : Str) (dirFiles : List Str) (f : Str) (fs : List Str) :
    process_command_line_run (.err msg) defaultUser cwd
      = .error ([Effect.print msg, Effect.print usageTextStr], 2)
    ∧ procOpts (("-h".toList, v) :: rest) cfg acc
      = .error (acc ++ [Effect.print usageTextStr], 0)
    ∧ procOpts (("--help".toList, v) :: rest) cfg acc
      = .error (acc ++ [Effect.print usageTextStr], 0)
    ∧ process_command_line_run (.ok (("-h".toList, v) :: rest) args) defaultUser cwd
      = .error ([Effect.print usageTextStr], 0)
    ∧ (dirFiles.filter zipGlob = [] →
        get_release_version releasePath dirFiles = .error (1, notFoundMsg releasePath))
    ∧ (dirFiles.filter zipGlob = f :: fs → archiveVersionMatch f = none →
        get_release_version releasePath dirFiles = .error (1, badVersionMsg f)) := by
  have hh : procOpts (("-h".toList, v) :: rest) cfg acc
      = .error (acc ++ [Effect.print usageTextStr], 0) := by
    unfold procOpts
    rw [if_pos (Or.inl rfl)]
  have hh0 : procOpts (("-h".toList, v) :: rest)
      { dryRun := false, username := defaultUser, skipUpload := false } []
      = .error ([] ++ [Effect.print usageTextStr], 0) := by
    unfold procOpts
    rw [if_pos (Or.inl rfl)]
  refine ⟨rfl, hh, ?_, ?_, fun h0 => ?_, fun hf hm => ?_⟩
  · unfold procOpts
    rw [if_pos (Or.inr rfl)]
  · unfold process_command_line_run
    dsimp only
    rw [hh0]
    simp
  · unfold get_release_version
    rw [h0]
  · unfold get_release_version
    rw [hf]
    simp [hm]

/-! ## Claim C9: skip-upload still resolves the version first -/

/-- C9: with skip-upload set, the metadata stage still resolves the
release version from the local working directory, so when no local file
matches `adodb-*.zip`, or the first candidate does not parse, the run ends
with exit status 1 and no metadata update request (no PUT effect) is ever
issued. -/
theorem C9_skip_upload_version_check (dryRun : Bool)
    (username apiKey releasePath : Str) (dirFiles : List Str)
    (respond : Str → SfResponse)
    (h : dirFiles.filter zipGlob = []
        ∨ ∃ f fs, dirFiles.filter zipGlob = f :: fs ∧ archiveVersionMatch f = none) :
    (main_run dryRun true username apiKey releasePath dirFiles respond).2 = some 1
    ∧ ∀ e ∈ (main_run dryRun true username apiKey releasePath dirFiles respond).1,
        ∀ u hd, e ≠ Effect.httpPut u hd := by
  have herr : ∃ msg, get_release_version releasePath dirFiles = .error (1, msg) := by
    rcases h with h0 | ⟨f, fs, hf, hm⟩
    · exact ⟨notFoundMsg releasePath, by unfold get_release_version; rw [h0]⟩
    · exact ⟨badVersionMsg f, by unfold get_release_version; rw [hf]; simp [hm]⟩
  obtain ⟨msg, herr⟩ := herr
  have hmain : main_run dryRun true username apiKey releasePath dirFiles respond
      = ([Effect.print "ADOdb release upload script".toList,
          Effect.print "Skipping upload of release files".toList,
          Effect.print "Updating uploaded files information".toList,
          Effect.print msg], some 1) := by
    unfold main_run set_sourceforge_file_info_run
    rw [herr]
    rfl
  rw [hmain]
  refine ⟨rfl, fun e he u hd => ?_⟩
  simp only [List.mem_cons, List.mem_singleton, List.not_mem_nil, or_false] at he
  rcases he with rfl | rfl | rfl | rfl <;> simp

/-- Witness for C9: an empty working directory with skip-upload set. -/
theorem C9_skip_upload_version_check_witness :
    (main_run false true "u".toList "k".toList "p".toList [] respond404).2 = some 1
    ∧ ∀ e ∈ (main_run false true "u".toList "k".toList "p".toList [] respond404).1,
        ∀ u hd, e ≠ Effect.httpPut u hd :=
  C9_skip_upload_version_check false "u".toList "k".toList "p".toList [] respond404
    (Or.inl rfl)

/-! ## Claim C6: dry-run spawns nothing and sends nothing -/

theorem fileLoop_dry_all_print (cfg : LoopCfg) (respond : Str → SfResponse)
    (hdry : cfg.dryRun = true) :
    ∀ files : List Str, ∀ e ∈ fileLoop cfg respond files, ∃ s, e = Effect.print s := by
  intro files
  induction files with
  | nil => intro e he; simp [fileLoop] at he
  | cons f rest ih =>
    intro e he
    cases hext : extTags (pySplitextExt f) with
    | none =>
      rw [show fileLoop cfg respond (f :: rest)
          = Effect.print ("  ".toList ++ f)
            :: Effect.print ("WARNING: Unknown extension for file ".toList ++ f)
            :: fileLoop cfg respond rest by simp [fileLoop, hext]] at he
      rcases List.mem_cons.mp he with rfl | he
      · exact ⟨_, rfl⟩
      rcases List.mem_cons.mp he with rfl | he
      · exact ⟨_, rfl⟩
      · exact ih e he
    | some defaults =>
      rw [show fileLoop cfg respond (f :: rest)
          = Effect.print ("  ".toList ++ f)
            :: Effect.print ("    Calling SourceForge Release API: ".toList
                 ++ requestUrl cfg f defaults)
            :: fileLoop cfg respond rest by simp [fileLoop, hext, hdry]] at he
      rcases List.mem_cons.mp he with rfl | he
      · exact ⟨_, rfl⟩
      rcases List.mem_cons.mp he with rfl | he
      · exact ⟨_, rfl⟩
      · exact ih e he

theorem set_info_dry_all_print (apiKey releasePath : Str) (dirFiles : List Str)
    (respond : Str → SfResponse) :
    ∀ e ∈ (set_sourceforge_file_info_run true apiKey releasePath dirFiles respond).1,
      ∃ s, e = Effect.print s := by
  intro e he
  unfold set_sourceforge_file_info_run at he
  cases hv : get_release_version releasePath dirFiles with
  | error p =>
    obtain ⟨code, msg⟩ := p
    rw [hv] at he
    dsimp only at he
    rcases List.mem_cons.mp he with rfl | he
    · exact ⟨_, rfl⟩
    rcases List.mem_cons.mp he with rfl | he
    · exact ⟨_, rfl⟩
    · exact absurd he (List.not_mem_nil e)
  | ok version =>
    rw [hv] at he
    dsimp only at he
    rcases List.mem_cons.mp he with rfl | he
    · exact ⟨_, rfl⟩
    · exact fileLoop_dry_all_print _ respond rfl _ e he

/-- C6: in dry-run mode every externally visible effect of the whole run
is a `print`: the transfer stage prints the remote `mkdir` and `rsync`
command lines instead of spawning them, and the metadata stage prints the
fully prepared request URL instead of issuing the PUT. -/
theorem C6_dry_run (skipUpload : Bool) (username apiKey releasePath : Str)
    (dirFiles : List Str) (respond : Str → SfResponse) (usr opt src dst : Str)
    (cfg : LoopCfg) (file : Str) (rest : List Str) (defaults : List Str) :
    (∀ e ∈ (main_run true skipUpload username apiKey releasePath dirFiles respond).1,
        ∃ s, e = Effect.print s)
    ∧ call_rsync true usr opt src dst
        = [Effect.print (mkdir_cmd_str usr dst), Effect.print (rsync_cmd_str usr opt src dst)]
    ∧ (cfg.dryRun = true → extTags (pySplitextExt file) = some defaults →
        fileLoop cfg respond (file :: rest)
          = Effect.print ("  ".toList ++ file)
            :: Effect.print ("    Calling SourceForge Release API: ".toList
                 ++ requestUrl cfg file defaults)
            :: fileLoop cfg respond rest) := by
  refine ⟨?_, rfl, fun hdry hext => by simp [fileLoop, hext, hdry]⟩
  intro e he
  unfold main_run at he
  cases skipUpload with
  | true =>
    dsimp only at he
    rcases List.mem_cons.mp he with rfl | he
    · exact ⟨_, rfl⟩
    rcases List.mem_cons.mp he with rfl | he
    · exact ⟨_, rfl⟩
    · exact set_info_dry_all_print apiKey releasePath dirFiles respond e he
  | false =>
    dsimp only at he
    cases hv : get_release_version releasePath dirFiles with
    | error p =>
      obtain ⟨code, msg⟩ := p
      rw [show upload_release_files_run true username releasePath dirFiles
          = .error ([Effect.print msg], code) by
            unfold upload_release_files_run; rw [hv]] at he
      dsimp only at he
      rcases List.mem_cons.mp he with rfl | he
      · exact ⟨_, rfl⟩
      rcases List.mem_cons.mp he with rfl | he
      · exact ⟨_, rfl⟩
      · exact absurd he (List.not_mem_nil e)
    | ok version =>
      rw [show upload_release_files_run true username releasePath dirFiles
          = .ok ([Effect.print [],
              Effect.print "Uploading release files...".toList,
              Effect.print ("  Source: ".toList ++ releasePath),
              Effect.print ("  Target: ".toList
                ++ (sf_files ++ sourceforge_target_dir version)),
              Effect.print ("  Files:  ".toList ++ List.intercalate ", ".toList dirFiles),
              Effect.print []]
             ++ [Effect.print (mkdir_cmd_str username (sf_files ++ sourceforge_target_dir version)),
                 Effect.print (rsync_cmd_str username []
                   (pyPathJoin releasePath "*".toList)
                   (sf_files ++ sourceforge_target_dir version))]
             ++ [Effect.print []]) by
            unfold upload_release_files_run; rw [hv]; rfl] at he
      dsimp only at he
      rcases List.mem_cons.mp he with rfl | he
      · exact ⟨_, rfl⟩
      rw [List.mem_append] at he
      rcases he with he | he
      · rw [List.mem_append] at he
        rcases he with he | he
        · rw [List.mem_append] at he
          rcases he with he | he
          · simp only [List.mem_cons, List.not_mem_nil, or_false] at he
            rcases he with rfl | rfl | rfl | rfl | rfl | rfl <;> exact ⟨_, rfl⟩
          · simp only [List.mem_cons, List.not_mem_nil, or_false] at he
            rcases he with rfl | rfl <;> exact ⟨_, rfl⟩
        · simp only [List.mem_cons, List.not_mem_nil, or_false] at he
          rcases he with rfl
          exact ⟨_, rfl⟩
      · exact set_info_dry_all_print apiKey releasePath dirFiles respond e he

/-! ## Claim C7: the query parameters of the metadata request -/

set_option maxRecDepth 8000 in
/-- C7 counterexample: at the concrete file `adodb-5.20.9.zip` with API key
`SECRETKEY`, the prepared request URL uses the query key `default` — the
payload dict key of the script — and the spelling `default[]=` claimed by
the spec occurs nowhere in it. -/
theorem C7_counterexample :
    requestUrl ⟨true, "SECRETKEY".toList, sfApiBase (sourceforge_target_dir "5.20.9".toList)⟩
        "adodb-5.20.9.zip".toList ["windows".toList]
      = ("https://sourceforge.net/projects/adodb/files/adodb-php5-only/adodb-5.20/"
          ++ "adodb-5.20.9.zip?default=windows&api_key=SECRETKEY").toList
    ∧ ¬ ("default[]=".toList <:+:
        requestUrl ⟨true, "SECRETKEY".toList, sfApiBase (sourceforge_target_dir "5.20.9".toList)⟩
          "adodb-5.20.9.zip".toList ["windows".toList]) := by
  constructor
  · decide
  · decide

/-- C7 (amended): for every processed file the request URL is
`path.join(base_url, file)` plus a query string carrying the parameter
`default=<tag>` (key `default`, without brackets) once per tag of the
platform tag set, followed by `api_key=<key>`, all `&`-separated. -/
theorem C7_query_params (cfg : LoopCfg) (file : Str) (defaults : List Str) :
    urlencodeParams [("default".toList, defaults), ("api_key".toList, [cfg.apiKey])]
      = List.intercalate "&".toList
          ((defaults.map fun t => "default=".toList ++ urlencode1 t)
            ++ ["api_key=".toList ++ urlencode1 cfg.apiKey])
    ∧ requestUrl cfg file defaults
      = pyPathJoin cfg.baseUrl file
        ++ '?' :: urlencodeParams
            [("default".toList, defaults), ("api_key".toList, [cfg.apiKey])] := by
  refine ⟨?_, rfl⟩
  unfold urlencodeParams
  simp only [List.flatMap_cons, List.flatMap_nil, List.map_cons, List.map_nil,
    List.append_nil]
  have h1 : (fun v => urlencode1 "default".toList ++ '=' :: urlencode1 v)
      = fun t => "default=".toList ++ urlencode1 t := funext fun v => rfl
  have h2 : urlencode1 "api_key".toList ++ '=' :: urlencode1 cfg.apiKey
      = "api_key=".toList ++ urlencode1 cfg.apiKey := rfl
  rw [h1, h2]

/-! ## Claim C8: the Accept header -/

set_option maxRecDepth 8000 in
/-- C8: the `headers` literal of the script is `{'Accept': 'application/json"'}`
— the value ends with a stray double-quote — so the PUT issued by the
metadata loop (witnessed here at a concrete input) carries an `Accept`
value that is not exactly `application/json`. -/
theorem C8_accept_header :
    Effect.httpPut (requestUrl ⟨false, "K".toList, "b".toList⟩
        "adodb-5.20.9.zip".toList ["windows".toList]) sf_headers
      ∈ fileLoop ⟨false, "K".toList, "b".toList⟩ (fun _ => ⟨200, "w".toList⟩)
          ["adodb-5.20.9.zip".toList]
    ∧ sf_headers = [("Accept".toList, "application/json\"".toList)]
    ∧ "application/json\"".toList ≠ "application/json".toList := by
  refine ⟨by decide, rfl, by decide⟩

/-! ## Claim C10: the printed dry-run URL depends on the API key -/

/-- Strings of 7-bit characters; SourceForge API keys (and everything else
the script places in a query string) are ASCII, and the single-byte
percent-encoding model is exact on this range. -/
def asciiStr (s : Str) : Prop := ∀ c ∈ s, c.toNat < 128

theorem hexDigit_inj : ∀ a, a < 16 → ∀ b, b < 16 → hexDigit a = hexDigit b → a = b := by
  decide

theorem char_toNat_inj {c d : Char} (h : c.toNat = d.toNat) : c = d := by
  have hc := Char.ofNat_toNat c
  rw [← hc, h, Char.ofNat_toNat]

theorem urlencodeChar_ne_nil (c : Char) : urlencodeChar c ≠ [] := by
  unfold urlencodeChar
  split_ifs <;> simp

theorem urlencode1_cons (c : Char) (s : Str) :
    urlencode1 (c :: s) = urlencodeChar c ++ urlencode1 s := rfl

theorem urlencode1_inj : ∀ (k1 k2 : Str), asciiStr k1 → asciiStr k2 →
    urlencode1 k1 = urlencode1 k2 → k1 = k2 := by
  intro k1
  induction k1 with
  | nil =>
    intro k2 _ _ h
    cases k2 with
    | nil => rfl
    | cons d ds =>
      rw [urlencode1_cons] at h
      exact absurd (List.append_eq_nil.mp h.symm).1 (urlencodeChar_ne_nil d)
  | cons c cs ih =>
    intro k2 ha1 ha2 h
    have ha1h : c.toNat < 128 := ha1 c (List.mem_cons_self c cs)
    have ha1t : asciiStr cs := fun x hx => ha1 x (List.mem_cons_of_mem c hx)
    cases k2 with
    | nil =>
      rw [urlencode1_cons] at h
      exact absurd (List.append_eq_nil.mp h).1 (urlencodeChar_ne_nil c)
    | cons d ds =>
      have ha2h : d.toNat < 128 := ha2 d (List.mem_cons_self d ds)
      have ha2t : asciiStr ds := fun x hx => ha2 x (List.mem_cons_of_mem d hx)
      rw [urlencode1_cons, urlencode1_cons] at h
      have step : c = d ∧ urlencode1 cs = urlencode1 ds := by
        by_cases hc : c = ' ' <;> by_cases hd : d = ' '
        · subst hc; subst hd
          rw [show urlencodeChar ' ' = ['+'] from rfl] at h
          simp only [List.singleton_append, List.cons.injEq, true_and] at h
          exact ⟨rfl, h⟩
        · subst hc
          by_cases hd2 : (d.isAlphanum || d == '_' || d == '.' || d == '-' || d == '~') = true
          · have hed : urlencodeChar d = [d] := by
              unfold urlencodeChar; rw [if_neg hd, if_pos hd2]
            rw [show urlencodeChar ' ' = ['+'] from rfl, hed] at h
            simp only [List.singleton_append, List.cons.injEq] at h
            obtain ⟨hplus, -⟩ := h
            subst hplus
            exact absurd hd2 (by decide)
          · have hed : urlencodeChar d
                = ['%', hexDigit (d.toNat / 16 % 16), hexDigit (d.toNat % 16)] := by
              unfold urlencodeChar; rw [if_neg hd, if_neg hd2]
            rw [show urlencodeChar ' ' = ['+'] from rfl, hed] at h
            simp only [List.singleton_append, List.cons_append, List.cons.injEq] at h
            exact absurd h.1 (by decide)
        · subst hd
          by_cases hc2 : (c.isAlphanum || c == '_' || c == '.' || c == '-' || c == '~') = true
          · have hec : urlencodeChar c = [c] := by
              unfold urlencodeChar; rw [if_neg hc, if_pos hc2]
            rw [show urlencodeChar ' ' = ['+'] from rfl, hec] at h
            simp only [List.singleton_append, List.cons.injEq] at h
            obtain ⟨hplus, -⟩ := h
            subst hplus
            exact absurd hc2 (by decide)
          · have hec : urlencodeChar c
                = ['%', hexDigit (c.toNat / 16 % 16), hexDigit (c.toNat % 16)] := by
              unfold urlencodeChar; rw [if_neg hc, if_neg hc2]
            rw [show urlencodeChar ' ' = ['+'] from rfl, hec] at h
            simp only [List.singleton_append, List.cons_append, List.cons.injEq] at h
            exact absurd h.1 (by decide)
        · by_cases hc2 : (c.isAlphanum || c == '_' || c == '.' || c == '-' || c == '~') = true
            <;> by_cases hd2 : (d.isAlphanum || d == '_' || d == '.' || d == '-' || d == '~') = true
          · have hec : urlencodeChar c = [c] := by
              unfold urlencodeChar; rw [if_neg hc, if_pos hc2]
            have hed : urlencodeChar d = [d] := by
              unfold urlencodeChar; rw [if_neg hd, if_pos hd2]
            rw [hec, hed] at h
            simp only [List.singleton_append, List.cons.injEq] at h
            exact h
          · have hec : urlencodeChar c = [c] := by
              unfold urlencodeChar; rw [if_neg hc, if_pos hc2]
            have hed : urlencodeChar d
                = ['%', hexDigit (d.toNat / 16 % 16), hexDigit (d.toNat % 16)] := by
              unfold urlencodeChar; rw [if_neg hd, if_neg hd2]
            rw [hec, hed] at h
            simp only [List.singleton_append, List.cons_append, List.cons.injEq] at h
            obtain ⟨hpc, -⟩ := h
            subst hpc
            exact absurd hc2 (by decide)
          · have hec : urlencodeChar c
                = ['%', hexDigit (c.toNat / 16 % 16), hexDigit (c.toNat % 16)] := by
              unfold urlencodeChar; rw [if_neg hc, if_neg hc2]
            have hed : urlencodeChar d = [d] := by
              unfold urlencodeChar; rw [if_neg hd, if_pos hd2]
            rw [hec, hed] at h
            simp only [List.singleton_append, List.cons_append, List.cons.injEq] at h
            obtain ⟨hpd, -⟩ := h
            have hpd2 : d = '%' := hpd.symm
            subst hpd2
            exact absurd hd2 (by decide)
          · have hec : urlencodeChar c
                = ['%', hexDigit (c.toNat / 16 % 16), hexDigit (c.toNat % 16)] := by
              unfold urlencodeChar; rw [if_neg hc, if_neg hc2]
            have hed : urlencodeChar d
                = ['%', hexDigit (d.toNat / 16 % 16), hexDigit (d.toNat % 16)] := by
              unfold urlencodeChar; rw [if_neg hd, if_neg hd2]
            rw [hec, hed] at h
            simp only [List.cons_append, List.cons.injEq, true_and] at h
            obtain ⟨hq0, hr0, htl⟩ := h
            have hdiv : c.toNat / 16 < 16 := by omega
            have hdiv2 : d.toNat / 16 < 16 := by omega
            have hq : c.toNat / 16 = d.toNat / 16 := by
              have := hexDigit_inj (c.toNat / 16 % 16) (by omega) (d.toNat / 16 % 16)
                (by omega) hq0
              omega
            have hr : c.toNat % 16 = d.toNat % 16 :=
              hexDigit_inj (c.toNat % 16) (by omega) (d.toNat % 16) (by omega) hr0
            have hn : c.toNat = d.toNat := by omega
            exact ⟨char_toNat_inj hn, htl⟩
      exact step.1 ▸ congrArg (List.cons c) (ih ds ha1t ha2t step.2)

theorem intercalate_cons_cons (sep x y : Str) (t : List Str) :
    List.intercalate sep (x :: y :: t) = x ++ (sep ++ List.intercalate sep (y :: t)) := by
  simp [List.intercalate, List.intersperse]

theorem intercalate_singleton (sep x : Str) : List.intercalate sep [x] = x := by
  simp [List.intercalate, List.intersperse]

/-- The query string of the script's payload, spelled out: one
`default=<tag>` pair per tag, then `api_key=<key>`. -/
theorem urlencodeParams_payload_eq (ds : List Str) (k : Str) :
    urlencodeParams [("default".toList, ds), ("api_key".toList, [k])]
      = List.intercalate "&".toList
          ((ds.map fun t => "default=".toList ++ urlencode1 t)
            ++ ["api_key=".toList ++ urlencode1 k]) := by
  unfold urlencodeParams
  simp only [List.flatMap_cons, List.flatMap_nil, List.map_cons, List.map_nil,
    List.append_nil]
  have h1 : (fun v => urlencode1 "default".toList ++ '=' :: urlencode1 v)
      = fun t => "default=".toList ++ urlencode1 t := funext fun v => rfl
  have h2 : urlencode1 "api_key".toList ++ '=' :: urlencode1 k
      = "api_key=".toList ++ urlencode1 k := rfl
  rw [h1, h2]

theorem intercalate_append_last_inj (sep : Str) : ∀ (M : List Str) (a b : Str),
    List.intercalate sep (M ++ [a]) = List.intercalate sep (M ++ [b]) → a = b := by
  intro M
  induction M with
  | nil =>
    intro a b h
    rw [List.nil_append, List.nil_append, intercalate_singleton, intercalate_singleton] at h
    exact h
  | cons m M' ih =>
    intro a b h
    cases M' with
    | nil =>
      simp only [List.cons_append, List.nil_append] at h
      rw [intercalate_cons_cons, intercalate_cons_cons,
        intercalate_singleton, intercalate_singleton] at h
      exact List.append_cancel_left (List.append_cancel_left h)
    | cons m2 M'' =>
      simp only [List.cons_append] at h
      rw [intercalate_cons_cons, intercalate_cons_cons] at h
      exact ih a b (List.append_cancel_left (List.append_cancel_left h))

theorem urlencodeParams_inj_key (ds : List Str) (k1 k2 : Str)
    (h : urlencodeParams [("default".toList, ds), ("api_key".toList, [k1])]
       = urlencodeParams [("default".toList, ds), ("api_key".toList, [k2])]) :
    urlencode1 k1 = urlencode1 k2 := by
  rw [urlencodeParams_payload_eq, urlencodeParams_payload_eq] at h
  have h2 := intercalate_append_last_inj "&".toList
    (ds.map fun t => "default=".toList ++ urlencode1 t) _ _ h
  exact List.append_cancel_left h2

theorem fileLoop_key_inj (respond : Str → SfResponse) :
    ∀ (files : List Str) (k1 k2 base : Str),
      asciiStr k1 → asciiStr k2 →
      (∃ f ∈ files, extTags (pySplitextExt f) ≠ none) →
      fileLoop ⟨true, k1, base⟩ respond files = fileLoop ⟨true, k2, base⟩ respond files →
      k1 = k2 := by
  intro files
  induction files with
  | nil =>
    intro k1 k2 base _ _ hex _
    rcases hex with ⟨f, hf, -⟩
    exact absurd hf (List.not_mem_nil f)
  | cons f rest ih =>
    intro k1 k2 base ha1 ha2 hex heq
    cases hext : extTags (pySplitextExt f) with
    | none =>
      rw [show fileLoop ⟨true, k1, base⟩ respond (f :: rest)
            = Effect.print ("  ".toList ++ f)
              :: Effect.print ("WARNING: Unknown extension for file ".toList ++ f)
              :: fileLoop ⟨true, k1, base⟩ respond rest by simp [fileLoop, hext],
          show fileLoop ⟨true, k2, base⟩ respond (f :: rest)
            = Effect.print ("  ".toList ++ f)
              :: Effect.print ("WARNING: Unknown extension for file ".toList ++ f)
              :: fileLoop ⟨true, k2, base⟩ respond rest by simp [fileLoop, hext]] at heq
      have hL : fileLoop ⟨true, k1, base⟩ respond rest
          = fileLoop ⟨true, k2, base⟩ respond rest := by
        simpa using heq
      rcases hex with ⟨f2, hf2, hne⟩
      rcases List.mem_cons.mp hf2 with rfl | hf2
      · exact absurd hext hne
      · exact ih k1 k2 base ha1 ha2 ⟨f2, hf2, hne⟩ hL
    | some defaults =>
      rw [show fileLoop ⟨true, k1, base⟩ respond (f :: rest)
            = Effect.print ("  ".toList ++ f)
              :: Effect.print ("    Calling SourceForge Release API: ".toList
                   ++ requestUrl ⟨true, k1, base⟩ f defaults)
              :: fileLoop ⟨true, k1, base⟩ respond rest by simp [fileLoop, hext],
          show fileLoop ⟨true, k2, base⟩ respond (f :: rest)
            = Effect.print ("  ".toList ++ f)
              :: Effect.print ("    Calling SourceForge Release API: ".toList
                   ++ requestUrl ⟨true, k2, base⟩ f defaults)
              :: fileLoop ⟨true, k2, base⟩ respond rest by simp [fileLoop, hext]] at heq
      simp only [List.cons.injEq, true_and, Effect.print.injEq] at heq
      have hu : requestUrl ⟨true, k1, base⟩ f defaults
          = requestUrl ⟨true, k2, base⟩ f defaults :=
        List.append_cancel_left heq.1
      unfold requestUrl at hu
      have hq : ('?' : Char) :: urlencodeParams
            [("default".toList, defaults), ("api_key".toList, [k1])]
          = '?' :: urlencodeParams
            [("default".toList, defaults), ("api_key".toList, [k2])] :=
        List.append_cancel_left hu
      have hp := List.cons.inj hq
      exact urlencode1_inj k1 k2 ha1 ha2 (urlencodeParams_inj_key defaults k1 k2 hp.2)

set_option maxRecDepth 8000 in
/-- C10 counterexample: two dry-run executions identical except for the
configured API key can print identical output — with no release archive in
the working directory both runs exit 1 before any request URL is composed,
so the claim does not hold of every pair of dry-run executions. -/
theorem C10_counterexample :
    ("A".toList : Str) ≠ "B".toList
    ∧ (main_run true true "u".toList "A".toList "p".toList [] respond404).1
      = (main_run true true "u".toList "B".toList "p".toList [] respond404).1 := by
  exact ⟨by decide, rfl⟩

/-- C10 (amended): in dry-run mode the printed request URL embeds the API
key as the `api_key` query parameter, so the secret reaches standard
output: two dry-run executions identical except for the configured (ASCII)
API key print different output whenever a request URL is printed at all —
that is, whenever version resolution succeeds and some discovered
`adodb-*` file has a recognized extension. -/
theorem C10_key_dependence (skipUpload : Bool) (username releasePath : Str)
    (dirFiles : List Str) (respond : Str → SfResponse) (k1 k2 v : Str)
    (ha1 : asciiStr k1) (ha2 : asciiStr k2) (hkne : k1 ≠ k2)
    (hv : get_release_version releasePath dirFiles = .ok v)
    (hfile : ∃ f ∈ dirFiles.filter adodbGlob, extTags (pySplitextExt f) ≠ none) :
    (main_run true skipUpload username k1 releasePath dirFiles respond).1
      ≠ (main_run true skipUpload username k2 releasePath dirFiles respond).1 := by
  intro heq
  apply hkne
  have hset : ∀ k : Str,
      set_sourceforge_file_info_run true k releasePath dirFiles respond
        = (Effect.print "Updating uploaded files information".toList
            :: fileLoop ⟨true, k, sfApiBase (sourceforge_target_dir v)⟩ respond
                (dirFiles.filter adodbGlob), none) := by
    intro k
    unfold set_sourceforge_file_info_run
    rw [hv]
  cases skipUpload with
  | true =>
    have hm : ∀ k : Str, (main_run true true username k releasePath dirFiles respond).1
        = Effect.print "ADOdb release upload script".toList
          :: Effect.print "Skipping upload of release files".toList
          :: Effect.print "Updating uploaded files information".toList
          :: fileLoop ⟨true, k, sfApiBase (sourceforge_target_dir v)⟩ respond
              (dirFiles.filter adodbGlob) := by
      intro k
      unfold main_run
      rw [hset k]
      rfl
    rw [hm k1, hm k2] at heq
    simp only [List.cons.injEq, true_and] at heq
    exact fileLoop_key_inj respond _ k1 k2 _ ha1 ha2 hfile heq
  | false =>
    have hup : ∃ E, upload_release_files_run true username releasePath dirFiles
        = .ok E := by
      unfold upload_release_files_run
      rw [hv]
      exact ⟨_, rfl⟩
    obtain ⟨E, hupE⟩ := hup
    have hm : ∀ k : Str, (main_run true false username k releasePath dirFiles respond).1
        = Effect.print "ADOdb release upload script".toList
          :: (E ++ (Effect.print "Updating uploaded files information".toList
              :: fileLoop ⟨true, k, sfApiBase (sourceforge_target_dir v)⟩ respond
                  (dirFiles.filter adodbGlob))) := by
      intro k
      unfold main_run
      rw [hupE, hset k]
      rfl
    rw [hm k1, hm k2] at heq
    simp only [List.cons.injEq, true_and] at heq
    have heq2 := List.append_cancel_left heq
    simp only [List.cons.injEq, true_and] at heq2
    exact fileLoop_key_inj respond _ k1 k2 _ ha1 ha2 hfile heq2

set_option maxRecDepth 8000 in
/-- Witness for the amended C10 at a concrete input: one release zip file,
keys `A` and `B`. -/
theorem C10_key_dependence_witness :
    (main_run true true "u".toList "A".toList "p".toList
        ["adodb-5.20.9.zip".toList] respond404).1
      ≠ (main_run true true "u".toList "B".toList "p".toList
        ["adodb-5.20.9.zip".toList] respond404).1 :=
  C10_key_dependence true "u".toList "p".toList ["adodb-5.20.9.zip".toList] respond404
    "A".toList "B".toList "5.20.9".toList (by unfold asciiStr; decide)
    (by unfold asciiStr; decide) (by decide)
    rfl ⟨"adodb-5.20.9.zip".toList, by decide, by decide⟩
